import Mathlib

/-
Verification of the TodoListClient item-ordering subsystem, the cache
invalidation rules of its mutation hooks, the retry policy, and the
authentication redirects, against the natural-language specification.

The definitions below are shallow embeddings of the TypeScript source:
  - handleMoveUp, handleMoveDown, handleDragEnd are the reorder handlers of
    the todo list detail page (TodoListDetailPage), lines 308-415.
  - buildOrders models the forEach loop that builds the itemOrders record in
    iteration order; spliceRemove and spliceInsert model Array.prototype.splice
    with one removal and one insertion respectively, including the clamping
    behaviour of splice for an insertion index at or past the end.
  - jsFindIndex models Array.prototype.findIndex, with the minus-one result
    modelled as none.
  - The cache model (invalidateQueries, removeQueries, setQueryData, the key
    factories) embeds the onSuccess blocks of the React Query mutation hooks
    in useTodoItems.ts and useTodoLists.ts.
  - mutationRetry is the retry predicate written identically in each mutation
    hook of useTodoItems.ts and useTodoLists.ts.
  - AuthRedirect and RootRedirect embed the two route guard components.
-/

/-- A todo item, restricted to the fields the ordering subsystem reads:
the opaque id and the integer order, plus title and completion flag. -/
structure TodoItem where
  id : String
  title : String
  isCompleted : Bool
  order : Int
  deriving DecidableEq, Repr

/-- Placeholder item used to model JavaScript array indexing; the handlers
only ever index within bounds, as the theorems below make explicit. -/
def dummyItem : TodoItem := { id := "", title := "", isCompleted := false, order := 0 }

/-- The itemOrders record of a ReorderItemsRequest, as the association list
built in iteration order by the handlers. -/
abbrev ReorderPayload := List (String × Int)

/-- JavaScript falsiness of the route parameter id: undefined or the empty
string are falsy. -/
def jsFalsyStr : Option String → Bool
  | none => true
  | some s => s == ""

/-- JavaScript array indexing items at a given position, returning none when
out of bounds. -/
def nthOpt {α : Type} : List α → Nat → Option α
  | [], _ => none
  | x :: _, 0 => some x
  | _ :: xs, n + 1 => nthOpt xs n

/-- Indexing with the placeholder default, modelling sortedItems at a
position in the handlers. -/
def itemAt (l : List TodoItem) (n : Nat) : TodoItem :=
  (nthOpt l n).getD dummyItem

/-- The forEach loop common to the three handlers: walk the sorted items,
keeping the running index, and record one pair per item whose value is given
by the per-handler rule f. -/
def buildOrders (f : Nat → TodoItem → Int) : Nat → List TodoItem → ReorderPayload
  | _, [] => []
  | idx, item :: rest => (item.id, f idx item) :: buildOrders f (idx + 1) rest

/-- Array.prototype.findIndex on the item id predicate, with none in place
of minus one. -/
def jsFindIndex (p : TodoItem → Bool) : List TodoItem → Option Nat
  | [] => none
  | x :: xs => if p x then some 0 else (jsFindIndex p xs).map (· + 1)

/-- Array.prototype.splice removing one element at the given index; removal
past the end leaves the array unchanged. -/
def spliceRemove : Nat → List TodoItem → List TodoItem
  | _, [] => []
  | 0, _ :: xs => xs
  | n + 1, x :: xs => x :: spliceRemove n xs

/-- Array.prototype.splice inserting one element before the given index;
an index at or past the end appends. -/
def spliceInsert (n : Nat) (a : TodoItem) : List TodoItem → List TodoItem
  | [] => [a]
  | x :: xs =>
    match n with
    | 0 => a :: x :: xs
    | m + 1 => x :: spliceInsert m a xs

/-- The drag end event of the drag and drop library as the handler reads it:
the dragged item id and the id of the item currently at the drop target,
absent when the drop happened outside any target. -/
structure DragEndEvent where
  activeId : String
  overId : Option String
  deriving DecidableEq, Repr

/-- The handleMoveUp handler of TodoListDetailPage: guard on a missing route
id, on the first item and on fewer than two items, then swap the order
values of the item and the item above it, leaving every other order value
unchanged, building the complete itemOrders record. -/
def handleMoveUp (listId : Option String) (sortedItems : List TodoItem)
    (itemIndex : Nat) : Option ReorderPayload :=
  if jsFalsyStr listId || decide (itemIndex = 0) || decide (sortedItems.length < 2) then
    none
  else
    let itemToMove := itemAt sortedItems itemIndex
    let itemAbove := itemAt sortedItems (itemIndex - 1)
    some (buildOrders
      (fun idx item =>
        if idx = itemIndex then itemAbove.order
        else if idx = itemIndex - 1 then itemToMove.order
        else item.order)
      0 sortedItems)

/-- The handleMoveDown handler of TodoListDetailPage: guard on a missing
route id, on the last item and on fewer than two items, then swap the order
values of the item and the item below it. The last-item comparison is the
JavaScript integer comparison itemIndex equal to length minus one. -/
def handleMoveDown (listId : Option String) (sortedItems : List TodoItem)
    (itemIndex : Nat) : Option ReorderPayload :=
  if jsFalsyStr listId || decide ((itemIndex : Int) = (sortedItems.length : Int) - 1)
      || decide (sortedItems.length < 2) then
    none
  else
    let itemToMove := itemAt sortedItems itemIndex
    let itemBelow := itemAt sortedItems (itemIndex + 1)
    some (buildOrders
      (fun idx item =>
        if idx = itemIndex then itemBelow.order
        else if idx = itemIndex + 1 then itemToMove.order
        else item.order)
      0 sortedItems)

/-- The handleDragEnd handler of TodoListDetailPage: guard on a missing
route id, a missing drop target and a drop on the dragged item itself; find
the source and target indices by id, returning early when either is absent;
then splice the moved item out of its old index, splice it in at the new
index, and assign order equal to the zero-based position to every item. -/
def handleDragEnd (listId : Option String) (sortedItems : List TodoItem)
    (ev : DragEndEvent) : Option ReorderPayload :=
  match ev.overId with
  | none => none
  | some overId =>
    if jsFalsyStr listId || (ev.activeId == overId) then none
    else
      match jsFindIndex (fun item => item.id == ev.activeId) sortedItems,
            jsFindIndex (fun item => item.id == overId) sortedItems with
      | some oldIndex, some newIndex =>
          some (buildOrders (fun idx _ => (idx : Int)) 0
            (spliceInsert newIndex (itemAt sortedItems oldIndex)
              (spliceRemove oldIndex sortedItems)))
      | _, _ => none

/-- The full-list relabel algorithm as the specification words it: remove
the moved item from its current index, reinsert it at the target index with
array splice semantics, then walk the resulting array assigning order equal
to the zero-based index for every item. -/
def specRelabelMove (items : List TodoItem) (fromIdx toIdx : Nat) : ReorderPayload :=
  buildOrders (fun idx _ => (idx : Int)) 0
    (spliceInsert toIdx (itemAt items fromIdx) (spliceRemove fromIdx items))

/-- Shorthand for a test item whose title repeats its id. -/
def mkItem (id : String) (ord : Int) : TodoItem :=
  { id := id, title := id, isCompleted := false, order := ord }

/-- The disabled condition of the move-up button in the TodoItem component:
first item, a reorder in flight, a completion toggle in flight, or a delete
in flight. -/
def moveUpButtonDisabled (isFirst isReordering markCompletePending deleteItemPending : Bool) : Bool :=
  isFirst || isReordering || markCompletePending || deleteItemPending

/-- The disabled condition of the move-down button in the TodoItem
component, with isLast in place of isFirst. -/
def moveDownButtonDisabled (isLast isReordering markCompletePending deleteItemPending : Bool) : Bool :=
  isLast || isReordering || markCompletePending || deleteItemPending

/-- The render condition of the move controls in the TodoItem component:
at least one move callback was supplied and the position prop is present. -/
def moveControlsRendered (hasOnMoveUp hasOnMoveDown : Bool) (position : Option Nat) : Bool :=
  (hasOnMoveUp || hasOnMoveDown) && position.isSome

/-- A click on the move-up affordance of the detail page, as wired by
TodoListDetailPage: isFirst is index equal to zero, isReordering is the
pending flag of the reorder mutation, and the click reaches handleMoveUp
only when the control is rendered and not disabled. -/
def pageMoveUpClick (listId : Option String) (sortedItems : List TodoItem) (index : Nat)
    (reorderPending markCompletePending deleteItemPending : Bool)
    (position : Option Nat) : Option ReorderPayload :=
  if moveControlsRendered true true position
      && !(moveUpButtonDisabled (decide (index = 0)) reorderPending
            markCompletePending deleteItemPending) then
    handleMoveUp listId sortedItems index
  else none

/-- A click on the move-down affordance of the detail page, with isLast the
JavaScript comparison of index with length minus one. -/
def pageMoveDownClick (listId : Option String) (sortedItems : List TodoItem) (index : Nat)
    (reorderPending markCompletePending deleteItemPending : Bool)
    (position : Option Nat) : Option ReorderPayload :=
  if moveControlsRendered true true position
      && !(moveDownButtonDisabled
            (decide ((index : Int) = (sortedItems.length : Int) - 1)) reorderPending
            markCompletePending deleteItemPending) then
    handleMoveDown listId sortedItems index
  else none

/-- A drag end on the detail page. The source handler closes over the
reorder mutation but never consults its pending flag, so the flag is an
argument the embedded handler ignores, exactly as the source does. -/
def pageDragEnd (listId : Option String) (sortedItems : List TodoItem)
    (reorderPending : Bool) (ev : DragEndEvent) : Option ReorderPayload :=
  handleDragEnd listId sortedItems ev

/-- What a route guard component renders: the neutral loading view, a
client-side navigation, or its wrapped children. -/
inductive RenderResult where
  | loadingView
  | navigate (dest : String)
  | children
  deriving DecidableEq, Repr

/-- The AuthRedirect component wrapping the login and register routes:
loading view while the credential check is in flight, navigation to the
lists view for an authenticated user, otherwise the wrapped auth page. -/
def AuthRedirect (isAuthenticated isLoading : Bool) : RenderResult :=
  if isLoading then .loadingView
  else if isAuthenticated then .navigate "/lists"
  else .children

/-- The RootRedirect component on the root route: loading view while the
credential check is in flight, then navigation to the lists view or to the
login page according to the authentication state. -/
def RootRedirect (isAuthenticated isLoading : Bool) : RenderResult :=
  if isLoading then .loadingView
  else if isAuthenticated then .navigate "/lists"
  else .navigate "/login"

/-- A React Query cache key, a list of string segments. -/
abbrev QueryKey := List String

/-- A cached entry, tracked up to the staleness flag the claims are about. -/
structure CacheEntry where
  stale : Bool
  deriving DecidableEq, Repr

/-- The query cache as an association list from keys to entries. -/
abbrev Cache := List (QueryKey × CacheEntry)

/-- Key matching of the query client: a filter key matches every cache key
that it is an initial segment of. -/
def matchesPat : QueryKey → QueryKey → Bool
  | [], _ => true
  | _ :: _, [] => false
  | p :: ps, k :: ks => p == k && matchesPat ps ks

/-- Modelled from the spec: the invalidate operation of the Cache Store
marks stale, and the query client applies it to every entry whose key the
given key matches. -/
def invalidateQueries (pat : QueryKey) : Cache → Cache
  | [] => []
  | e :: rest =>
    (if matchesPat pat e.1 then (e.1, { stale := true }) else e) :: invalidateQueries pat rest

/-- Modelled from the spec: removal deletes every entry whose key the given
key matches, so the data is gone from the cache entirely. -/
def removeQueries (pat : QueryKey) : Cache → Cache
  | [] => []
  | e :: rest =>
    if matchesPat pat e.1 then removeQueries pat rest
    else e :: removeQueries pat rest

/-- Modelled from the spec: the patch operation of the Cache Store
synchronously overwrites the entry at exactly the given key with fresh data,
without marking it stale, inserting the entry when absent. -/
def setQueryData (k : QueryKey) : Cache → Cache
  | [] => [(k, { stale := false })]
  | e :: rest =>
    if e.1 = k then (k, { stale := false }) :: rest
    else e :: setQueryData k rest

/-- Lookup of the entry stored at exactly a key. -/
def cacheFind (k : QueryKey) : Cache → Option CacheEntry
  | [] => none
  | e :: rest => if e.1 = k then some e.2 else cacheFind k rest

/-- The query key for the collection of all todo lists. -/
def todoListKeys.all : QueryKey := ["todoLists"]

/-- The query key for one todo list by id. -/
def todoListKeys.detail (id : String) : QueryKey := ["todoLists", id]

/-- The query key for all items of a list. -/
def todoItemKeys.list (listId : String) : QueryKey := ["todoItems", "list", listId]

/-- The query key for one item of a list. -/
def todoItemKeys.detail (listId itemId : String) : QueryKey :=
  ["todoItems", "detail", listId, itemId]

/-- The onSuccess block of useDeleteList: remove the detail entry of the
deleted list, then invalidate the all-lists key. -/
def useDeleteListOnSuccess (deletedId : String) (c : Cache) : Cache :=
  invalidateQueries todoListKeys.all
    (removeQueries (todoListKeys.detail deletedId) c)

/-- The onSuccess block of useCreateItem: invalidate the items of the list,
write the created item into its detail entry, invalidate the detail entry of
the parent list, then invalidate the all-lists key. -/
def useCreateItemOnSuccess (listId newItemId : String) (c : Cache) : Cache :=
  invalidateQueries todoListKeys.all
    (invalidateQueries (todoListKeys.detail listId)
      (setQueryData (todoItemKeys.detail listId newItemId)
        (invalidateQueries (todoItemKeys.list listId) c)))

/-- The onSuccess block of useReorderItems: invalidate the items of the
list, and nothing else. -/
def useReorderItemsOnSuccess (listId : String) (c : Cache) : Cache :=
  invalidateQueries (todoItemKeys.list listId) c

/-- The error kinds of the specification taxonomy. -/
inductive ErrorKind where
  | validation
  | auth
  | notFound
  | conflict
  | network
  | server
  | unknown
  deriving DecidableEq, Repr

/-- Modelled from the spec: the status-code classification of the Remote
Data Gateway, which normalizes failures into kinds; the service layer
performing it is not part of the sources here. A network failure carries no
response status, modelled as none. -/
def classifyStatus : Option Nat → ErrorKind
  | none => .network
  | some s =>
    if s = 400 ∨ s = 422 then .validation
    else if s = 401 then .auth
    else if s = 404 then .notFound
    else if s = 409 then .conflict
    else if 500 ≤ s ∧ s < 600 then .server
    else .unknown

/-- Whether the error carries a 4xx response status; a missing response,
as in a network failure, compares false exactly as undefined does in the
JavaScript comparison chain. -/
def status4xx : Option Nat → Bool
  | none => false
  | some s => decide (400 ≤ s) && decide (s < 500)

/-- The retry predicate written identically in useCreateItem, useUpdateItem,
useDeleteItem, useMarkItemComplete and useReorderItems, and again in
useCreateList, useUpdateList and useDeleteList: never retry a 4xx response,
otherwise retry while the failure count is below one. -/
def mutationRetry (failureCount : Nat) (responseStatus : Option Nat) : Bool :=
  if status4xx responseStatus then false
  else decide (failureCount < 1)

/-- The pairs a handler emits for items it leaves untouched: each item keeps
its own order value. -/
def ordPairs (l : List TodoItem) : ReorderPayload :=
  l.map fun it => (it.id, it.order)

theorem nthOpt_eq_get? {α : Type} (l : List α) (n : Nat) : nthOpt l n = l.get? n := by
  induction l generalizing n with
  | nil => cases n <;> rfl
  | cons x xs ih => cases n with
    | zero => rfl
    | succ m => simpa [nthOpt] using ih m

theorem nthOpt_lt_length {α : Type} (l : List α) (n : Nat) (a : α)
    (h : nthOpt l n = some a) : n < l.length := by
  induction l generalizing n with
  | nil => simp [nthOpt] at h
  | cons x xs ih => cases n with
    | zero => simp
    | succ m =>
      simp only [nthOpt] at h
      exact Nat.succ_lt_succ (ih m h)

theorem nthOpt_append_left {α : Type} (A l : List α) (n : Nat) (h : n < A.length) :
    nthOpt (A ++ l) n = nthOpt A n := by
  induction A generalizing n with
  | nil => simp at h
  | cons x xs ih => cases n with
    | zero => rfl
    | succ m =>
      simp only [List.cons_append, nthOpt]
      exact ih m (Nat.lt_of_succ_lt_succ h)

theorem nthOpt_append_len {α : Type} (A l : List α) (n : Nat) :
    nthOpt (A ++ l) (A.length + n) = nthOpt l n := by
  induction A with
  | nil => simp [Nat.zero_add]
  | cons x xs ih =>
    have harith : xs.length + 1 + n = (xs.length + n) + 1 := by omega
    simp only [List.cons_append, List.length_cons, harith, nthOpt]
    exact ih

theorem buildOrders_append (f : Nat → TodoItem → Int) (s : Nat) (A l : List TodoItem) :
    buildOrders f s (A ++ l) = buildOrders f s A ++ buildOrders f (s + A.length) l := by
  induction A generalizing s with
  | nil => simp [buildOrders]
  | cons x xs ih =>
    have harith : s + (xs.length + 1) = (s + 1) + xs.length := by omega
    simp only [List.cons_append, buildOrders, List.length_cons, harith, List.append_eq]
    rw [ih (s + 1)]

theorem buildOrders_congr (f g : Nat → TodoItem → Int) (s : Nat) (l : List TodoItem)
    (h : ∀ idx it, f idx it = g idx it) :
    buildOrders f s l = buildOrders g s l := by
  induction l generalizing s with
  | nil => rfl
  | cons x xs ih => simp only [buildOrders, h, ih]

theorem buildOrders_eq_ordPairs (f : Nat → TodoItem → Int) (s : Nat) (l : List TodoItem)
    (h : ∀ idx it, s ≤ idx → idx < s + l.length → f idx it = it.order) :
    buildOrders f s l = ordPairs l := by
  induction l generalizing s with
  | nil => rfl
  | cons x xs ih =>
    simp only [buildOrders, ordPairs, List.map_cons]
    congr 1
    · rw [h s x (Nat.le_refl s) (by simp only [List.length_cons]; omega)]
    · have := ih (s + 1) fun idx it h1 h2 =>
        h idx it (by omega) (by simp only [List.length_cons]; omega)
      simpa [ordPairs] using this

theorem ordPairs_eq_idxPairs (s : Nat) (l : List TodoItem)
    (h : ∀ k it, nthOpt l k = some it → it.order = ((s + k : Nat) : Int)) :
    ordPairs l = buildOrders (fun idx _ => (idx : Int)) s l := by
  induction l generalizing s with
  | nil => rfl
  | cons x xs ih =>
    simp only [ordPairs, List.map_cons, buildOrders]
    congr 1
    · have h0 := h 0 x rfl
      rw [h0]
      norm_num
    · have := ih (s + 1) fun k it hk => by
        have hkk := h (k + 1) it hk
        rw [hkk]
        congr 1
        omega
      simpa [ordPairs] using this

theorem buildOrders_nthOpt (f : Nat → TodoItem → Int) (s : Nat) (l : List TodoItem) (k : Nat) :
    nthOpt (buildOrders f s l) k = (nthOpt l k).map (fun it => (it.id, f (s + k) it)) := by
  induction l generalizing s k with
  | nil => cases k <;> rfl
  | cons x xs ih =>
    cases k with
    | zero => simp [buildOrders, nthOpt]
    | succ m =>
      simp only [buildOrders, nthOpt, ih (s + 1) m]
      rw [show s + 1 + m = s + (m + 1) from by omega]

theorem buildOrders_snd_range (s : Nat) (l : List TodoItem) :
    (buildOrders (fun idx _ => (idx : Int)) s l).map Prod.snd
      = (List.range l.length).map (fun k => ((s + k : Nat) : Int)) := by
  induction l generalizing s with
  | nil => rfl
  | cons x xs ih =>
    simp only [buildOrders, List.map_cons, List.length_cons, List.range_succ_eq_map,
      List.map_map, ih]
    refine List.cons_eq_cons.mpr ⟨by norm_num, ?_⟩
    apply List.map_congr_left
    intro a ha
    simp only [Function.comp_apply]
    omega

theorem buildOrders_length (f : Nat → TodoItem → Int) (s : Nat) (l : List TodoItem) :
    (buildOrders f s l).length = l.length := by
  induction l generalizing s with
  | nil => rfl
  | cons x xs ih => simp [buildOrders, ih]

theorem spliceInsert_length (n : Nat) (a : TodoItem) (l : List TodoItem) :
    (spliceInsert n a l).length = l.length + 1 := by
  induction l generalizing n with
  | nil => simp [spliceInsert]
  | cons x xs ih => cases n with
    | zero => rfl
    | succ m => simp [spliceInsert, ih]

theorem spliceRemove_length (n : Nat) (l : List TodoItem) (h : n < l.length) :
    (spliceRemove n l).length = l.length - 1 := by
  induction l generalizing n with
  | nil => simp at h
  | cons x xs ih => cases n with
    | zero => simp [spliceRemove]
    | succ m =>
      have hm : m < xs.length := by
        simp only [List.length_cons] at h
        omega
      simp only [spliceRemove, List.length_cons]
      rw [ih m hm]
      omega

theorem spliceInsert_append_len (A : List TodoItem) (n : Nat) (a : TodoItem) (l : List TodoItem) :
    spliceInsert (A.length + n) a (A ++ l) = A ++ spliceInsert n a l := by
  induction A with
  | nil => simp
  | cons x xs ih =>
    have harith : xs.length + 1 + n = (xs.length + n) + 1 := by omega
    simp only [List.cons_append, List.length_cons, harith, spliceInsert, ih]

theorem spliceRemove_append_len (A : List TodoItem) (n : Nat) (l : List TodoItem) :
    spliceRemove (A.length + n) (A ++ l) = A ++ spliceRemove n l := by
  induction A with
  | nil => simp
  | cons x xs ih =>
    have harith : xs.length + 1 + n = (xs.length + n) + 1 := by omega
    simp only [List.cons_append, List.length_cons, harith, spliceRemove, ih]

theorem jsFindIndex_lt (p : TodoItem → Bool) (l : List TodoItem) (i : Nat)
    (h : jsFindIndex p l = some i) : i < l.length := by
  induction l generalizing i with
  | nil => simp [jsFindIndex] at h
  | cons x xs ih =>
    simp only [jsFindIndex] at h
    by_cases hp : p x
    · simp [hp] at h
      simp only [List.length_cons]
      omega
    · simp [hp] at h
      cases hfi : jsFindIndex p xs with
      | none => rw [hfi] at h; simp at h
      | some j =>
        rw [hfi] at h
        simp at h
        have := ih j hfi
        simp only [List.length_cons]
        omega

theorem exists_decomp (items : List TodoItem) (i : Nat) (h : i + 1 < items.length) :
    ∃ A x y B, items = A ++ x :: y :: B ∧ A.length = i := by
  induction items generalizing i with
  | nil => simp at h
  | cons z rest ih =>
    cases i with
    | zero =>
      cases rest with
      | nil => simp at h
      | cons y B => exact ⟨[], z, y, B, rfl, rfl⟩
    | succ j =>
      obtain ⟨A, x, y, B, hEq, hLen⟩ := ih j (by
        simp only [List.length_cons] at h
        omega)
      exact ⟨z :: A, x, y, B, by simp [hEq], by simp [hLen]⟩

theorem itemAt_decomp_fst (A : List TodoItem) (x y : TodoItem) (B : List TodoItem) :
    itemAt (A ++ x :: y :: B) A.length = x := by
  have := nthOpt_append_len A (x :: y :: B) 0
  simp only [Nat.add_zero] at this
  simp [itemAt, this, nthOpt]

theorem itemAt_decomp_snd (A : List TodoItem) (x y : TodoItem) (B : List TodoItem) :
    itemAt (A ++ x :: y :: B) (A.length + 1) = y := by
  have := nthOpt_append_len A (x :: y :: B) 1
  simp [itemAt, this, nthOpt]

theorem buildOrders_decomp_mid (f : Nat → TodoItem → Int) (A : List TodoItem)
    (x y : TodoItem) (B : List TodoItem) :
    buildOrders f 0 (A ++ x :: y :: B)
      = buildOrders f 0 A
        ++ (x.id, f A.length x) :: (y.id, f (A.length + 1) y)
        :: buildOrders f (A.length + 2) B := by
  rw [buildOrders_append]
  simp only [Nat.zero_add, buildOrders]

theorem handleMoveUp_decomp (listId : Option String) (hid : jsFalsyStr listId = false)
    (A : List TodoItem) (x y : TodoItem) (B : List TodoItem) :
    handleMoveUp listId (A ++ x :: y :: B) (A.length + 1)
      = some (ordPairs A ++ (x.id, y.order) :: (y.id, x.order) :: ordPairs B) := by
  have hx1 : A.length + 1 - 1 = A.length := by omega
  unfold handleMoveUp
  rw [hid, decide_eq_false (Nat.succ_ne_zero A.length),
    decide_eq_false (show ¬ (A ++ x :: y :: B).length < 2 by
      simp only [List.length_append, List.length_cons]; omega)]
  simp only [Bool.false_or, Bool.or_self, Bool.false_eq_true, if_false]
  rw [hx1, itemAt_decomp_fst A x y B, itemAt_decomp_snd A x y B]
  rw [buildOrders_decomp_mid]
  have c1 : (A.length = A.length + 1) = False := eq_false (by omega)
  have c2 : (A.length + 1 = A.length + 1) = True := eq_true rfl
  have c3 : (A.length = A.length) = True := eq_true rfl
  simp only [c1, c2, c3, if_true, if_false]
  have hA : buildOrders
      (fun idx item => if idx = A.length + 1 then x.order
        else if idx = A.length then y.order else item.order) 0 A = ordPairs A :=
    buildOrders_eq_ordPairs _ 0 A (fun idx it h1 h2 => by
      rw [if_neg (by omega), if_neg (by omega)])
  have hB : buildOrders
      (fun idx item => if idx = A.length + 1 then x.order
        else if idx = A.length then y.order else item.order) (A.length + 2) B = ordPairs B :=
    buildOrders_eq_ordPairs _ _ B (fun idx it h1 h2 => by
      rw [if_neg (by omega), if_neg (by omega)])
  rw [hA, hB]

theorem handleMoveDown_decomp (listId : Option String) (hid : jsFalsyStr listId = false)
    (A : List TodoItem) (x y : TodoItem) (B : List TodoItem) :
    handleMoveDown listId (A ++ x :: y :: B) A.length
      = some (ordPairs A ++ (x.id, y.order) :: (y.id, x.order) :: ordPairs B) := by
  unfold handleMoveDown
  rw [hid, decide_eq_false (show ¬ ((A.length : Int) = ((A ++ x :: y :: B).length : Int) - 1) by
      simp only [List.length_append, List.length_cons]
      push_cast
      omega),
    decide_eq_false (show ¬ (A ++ x :: y :: B).length < 2 by
      simp only [List.length_append, List.length_cons]; omega)]
  simp only [Bool.false_or, Bool.or_self, Bool.false_eq_true, if_false]
  rw [itemAt_decomp_fst A x y B, itemAt_decomp_snd A x y B]
  rw [buildOrders_decomp_mid]
  have c1 : (A.length = A.length) = True := eq_true rfl
  have c2 : (A.length + 1 = A.length) = False := eq_false (by omega)
  have c3 : (A.length + 1 = A.length + 1) = True := eq_true rfl
  simp only [c1, c2, c3, if_true, if_false]
  have hA : buildOrders
      (fun idx item => if idx = A.length then y.order
        else if idx = A.length + 1 then x.order else item.order) 0 A = ordPairs A :=
    buildOrders_eq_ordPairs _ 0 A (fun idx it h1 h2 => by
      rw [if_neg (by omega), if_neg (by omega)])
  have hB : buildOrders
      (fun idx item => if idx = A.length then y.order
        else if idx = A.length + 1 then x.order else item.order) (A.length + 2) B = ordPairs B :=
    buildOrders_eq_ordPairs _ _ B (fun idx it h1 h2 => by
      rw [if_neg (by omega), if_neg (by omega)])
  rw [hA, hB]

theorem specRelabelMove_decomp_up (A : List TodoItem) (x y : TodoItem) (B : List TodoItem) :
    specRelabelMove (A ++ x :: y :: B) (A.length + 1) A.length
      = buildOrders (fun idx _ => (idx : Int)) 0 A
        ++ (y.id, (A.length : Int)) :: (x.id, ((A.length + 1 : Nat) : Int))
        :: buildOrders (fun idx _ => (idx : Int)) (A.length + 2) B := by
  unfold specRelabelMove
  rw [itemAt_decomp_snd A x y B]
  rw [show spliceRemove (A.length + 1) (A ++ x :: y :: B) = A ++ x :: B from by
    have h := spliceRemove_append_len A 1 (x :: y :: B)
    simpa [spliceRemove] using h]
  rw [show spliceInsert A.length y (A ++ x :: B) = A ++ y :: x :: B from by
    have h := spliceInsert_append_len A 0 y (x :: B)
    simpa [spliceInsert] using h]
  rw [buildOrders_decomp_mid]

theorem specRelabelMove_decomp_down (A : List TodoItem) (x y : TodoItem) (B : List TodoItem) :
    specRelabelMove (A ++ x :: y :: B) A.length (A.length + 1)
      = buildOrders (fun idx _ => (idx : Int)) 0 A
        ++ (y.id, (A.length : Int)) :: (x.id, ((A.length + 1 : Nat) : Int))
        :: buildOrders (fun idx _ => (idx : Int)) (A.length + 2) B := by
  unfold specRelabelMove
  rw [itemAt_decomp_fst A x y B]
  rw [show spliceRemove A.length (A ++ x :: y :: B) = A ++ y :: B from by
    have h := spliceRemove_append_len A 0 (x :: y :: B)
    simpa [spliceRemove] using h]
  rw [show spliceInsert (A.length + 1) x (A ++ y :: B) = A ++ y :: x :: B from by
    have h := spliceInsert_append_len A 1 x (y :: B)
    have h0 : spliceInsert 0 x B = x :: B := by cases B <;> rfl
    simpa [spliceInsert, h0] using h]
  rw [buildOrders_decomp_mid]

theorem handleDragEnd_eq (listId : Option String) (items : List TodoItem)
    (ev : DragEndEvent) (overId : String) (oldIdx newIdx : Nat)
    (hid : jsFalsyStr listId = false) (hov : ev.overId = some overId)
    (hne : ev.activeId ≠ overId)
    (hold : jsFindIndex (fun it => it.id == ev.activeId) items = some oldIdx)
    (hnew : jsFindIndex (fun it => it.id == overId) items = some newIdx) :
    handleDragEnd listId items ev = some (specRelabelMove items oldIdx newIdx) := by
  obtain ⟨aid, ov⟩ := ev
  simp only [DragEndEvent.overId] at hov
  simp only [DragEndEvent.activeId] at hne hold
  subst hov
  have hb : (aid == overId) = false := by simpa using hne
  unfold handleDragEnd
  simp only [hid, hb, Bool.false_or, Bool.or_false, Bool.false_eq_true, if_false]
  rw [hold, hnew]
  rfl

theorem nthOpt_map {α β : Type} (f : α → β) (l : List α) (n : Nat) :
    nthOpt (l.map f) n = (nthOpt l n).map f := by
  induction l generalizing n with
  | nil => cases n <;> rfl
  | cons x xs ih => cases n with
    | zero => rfl
    | succ m => simpa [nthOpt] using ih m

theorem nthOpt_range (n m : Nat) (h : m < n) : nthOpt (List.range n) m = some m := by
  induction n generalizing m with
  | zero => omega
  | succ k ih =>
    rw [List.range_succ_eq_map]
    cases m with
    | zero => rfl
    | succ j =>
      have hj : j < k := by omega
      simp only [nthOpt, nthOpt_map, ih j hj]
      rfl

theorem dense_nthOpt (items : List TodoItem)
    (hD : items.map (fun it => it.order)
      = (List.range items.length).map (fun (k : Nat) => (k : Int)))
    (k : Nat) (it : TodoItem) (h : nthOpt items k = some it) : it.order = (k : Int) := by
  have hk : k < items.length := nthOpt_lt_length _ _ _ h
  have h1 : nthOpt (items.map fun it => it.order) k = some it.order := by
    rw [nthOpt_map, h]
    rfl
  rw [hD, nthOpt_map, nthOpt_range _ _ hk] at h1
  simp only [Option.map_some'] at h1
  exact (Option.some.inj h1).symm

theorem nthOpt_decomp_fst (A : List TodoItem) (x y : TodoItem) (B : List TodoItem) :
    nthOpt (A ++ x :: y :: B) A.length = some x := by
  have h := nthOpt_append_len A (x :: y :: B) 0
  rw [Nat.add_zero] at h
  rw [h]
  rfl

theorem nthOpt_decomp_snd (A : List TodoItem) (x y : TodoItem) (B : List TodoItem) :
    nthOpt (A ++ x :: y :: B) (A.length + 1) = some y := by
  rw [nthOpt_append_len A (x :: y :: B) 1]
  rfl

theorem ordPairs_snd (l : List TodoItem) :
    (ordPairs l).map Prod.snd = l.map fun it => it.order := by
  induction l with
  | nil => rfl
  | cons x xs ih => simp [ordPairs, ih]

theorem handleMoveUp_eq (listId : Option String) (items : List TodoItem) (i : Nat)
    (hid : jsFalsyStr listId = false) (h0 : i ≠ 0) (h2 : ¬ items.length < 2) :
    handleMoveUp listId items i
      = some (buildOrders
          (fun idx item =>
            if idx = i then (itemAt items (i - 1)).order
            else if idx = i - 1 then (itemAt items i).order
            else item.order) 0 items) := by
  unfold handleMoveUp
  rw [hid, decide_eq_false h0, decide_eq_false h2]
  rfl

theorem handleMoveDown_eq (listId : Option String) (items : List TodoItem) (i : Nat)
    (hid : jsFalsyStr listId = false)
    (hlast : ¬ ((i : Int) = (items.length : Int) - 1)) (h2 : ¬ items.length < 2) :
    handleMoveDown listId items i
      = some (buildOrders
          (fun idx item =>
            if idx = i then (itemAt items (i + 1)).order
            else if idx = i + 1 then (itemAt items i).order
            else item.order) 0 items) := by
  unfold handleMoveDown
  rw [hid, decide_eq_false hlast, decide_eq_false h2]
  rfl

/-- Claim C3: for every current sorted sequence and every drag move of one
item to a target index, the computed payload follows remove-then-insert
splice semantics followed by dense zero-based relabeling; in particular for
four items A B C D with orders 0 1 2 3, moving A to index 2 yields the
sequence B C A D and the payload mapping B to 0, C to 1, A to 2 and D to 3. -/
theorem claimC3_drag_splice_correct :
    (∀ (listId : Option String) (items : List TodoItem) (ev : DragEndEvent)
        (overId : String) (oldIdx newIdx : Nat),
        jsFalsyStr listId = false →
        ev.overId = some overId →
        ev.activeId ≠ overId →
        jsFindIndex (fun it => it.id == ev.activeId) items = some oldIdx →
        jsFindIndex (fun it => it.id == overId) items = some newIdx →
        handleDragEnd listId items ev = some (specRelabelMove items oldIdx newIdx))
    ∧ handleDragEnd (some "L")
        [mkItem "A" 0, mkItem "B" 1, mkItem "C" 2, mkItem "D" 3]
        { activeId := "A", overId := some "C" }
        = some [("B", 0), ("C", 1), ("A", 2), ("D", 3)] := by
  constructor
  · intro listId items ev overId oldIdx newIdx hid hov hne hold hnew
    exact handleDragEnd_eq listId items ev overId oldIdx newIdx hid hov hne hold hnew
  · decide

/-- Witness for claim C3: the general statement applied to the concrete
four item drag of the specification example. -/
theorem claimC3_witness :
    handleDragEnd (some "L")
      [mkItem "A" 0, mkItem "B" 1, mkItem "C" 2, mkItem "D" 3]
      { activeId := "A", overId := some "C" }
      = some (specRelabelMove
          [mkItem "A" 0, mkItem "B" 1, mkItem "C" 2, mkItem "D" 3] 0 2) :=
  claimC3_drag_splice_correct.1 (some "L")
    [mkItem "A" 0, mkItem "B" 1, mkItem "C" 2, mkItem "D" 3]
    { activeId := "A", overId := some "C" } "C" 0 2
    (by decide) rfl (by decide) (by decide) (by decide)

/-- Claim C10: for a sorted sequence and an index i with 1 up to n minus 1,
the payload of the move-up handler at i equals the payload of the move-down
handler at i minus 1, and every item at a position other than i and i minus
1 keeps its own order value in the payload. -/
theorem claimC10_up_down_dual (listId : Option String) (items : List TodoItem) (i : Nat)
    (hid : jsFalsyStr listId = false) (h1 : 1 ≤ i) (h2 : i < items.length) :
    handleMoveUp listId items i = handleMoveDown listId items (i - 1)
    ∧ ∀ p k, handleMoveUp listId items i = some p → k ≠ i → k ≠ i - 1 →
        nthOpt p k = (nthOpt items k).map (fun it => (it.id, it.order)) := by
  have e1 := handleMoveUp_eq listId items i hid (by omega) (by omega)
  have hlast : ¬ (((i - 1 : Nat) : Int) = (items.length : Int) - 1) := by omega
  have e2 := handleMoveDown_eq listId items (i - 1) hid hlast (by omega)
  have hi1 : i - 1 + 1 = i := by omega
  constructor
  · rw [e1, e2, hi1]
    congr 1
    apply buildOrders_congr
    intro idx it
    by_cases hA : idx = i
    · rw [if_pos hA, if_neg (by omega), if_pos hA]
    · by_cases hB : idx = i - 1
      · rw [if_neg hA, if_pos hB, if_pos hB]
      · rw [if_neg hA, if_neg hB, if_neg hB, if_neg hA]
  · intro p k hp hk1 hk2
    rw [e1] at hp
    have hp' : p = buildOrders
        (fun idx item =>
          if idx = i then (itemAt items (i - 1)).order
          else if idx = i - 1 then (itemAt items i).order
          else item.order) 0 items := (Option.some.inj hp).symm
    subst hp'
    rw [buildOrders_nthOpt]
    cases hkk : nthOpt items k with
    | none => rfl
    | some it =>
      simp only [Option.map_some']
      simp only [Nat.zero_add]
      rw [if_neg hk1, if_neg hk2]

/-- Witness for claim C10: moving the middle item of a three item list up
equals moving the first item down, and the last item keeps its pair. -/
theorem claimC10_witness :
    handleMoveUp (some "L") [mkItem "a" 0, mkItem "b" 1, mkItem "c" 2] 1
      = handleMoveDown (some "L") [mkItem "a" 0, mkItem "b" 1, mkItem "c" 2] 0
    ∧ nthOpt ([("a", 1), ("b", 0), ("c", 2)] : ReorderPayload) 2
      = (nthOpt [mkItem "a" 0, mkItem "b" 1, mkItem "c" 2] 2).map
          (fun it => (it.id, it.order)) :=
  ⟨(claimC10_up_down_dual (some "L") [mkItem "a" 0, mkItem "b" 1, mkItem "c" 2] 1
      (by decide) (by decide) (by decide)).1,
   (claimC10_up_down_dual (some "L") [mkItem "a" 0, mkItem "b" 1, mkItem "c" 2] 1
      (by decide) (by decide) (by decide)).2
      [("a", 1), ("b", 0), ("c", 2)] 2 (by decide) (by decide) (by decide)⟩

/-- Claim C8: moving the first item up, moving the last item down, and any
reorder operation on a list with zero or one items return before building a
payload, so no reorder request is dispatched and no state changes. -/
theorem claimC8_boundary_noop :
    (∀ (listId : Option String) (items : List TodoItem),
        handleMoveUp listId items 0 = none)
    ∧ (∀ (listId : Option String) (items : List TodoItem),
        handleMoveDown listId items (items.length - 1) = none)
    ∧ (∀ (listId : Option String) (items : List TodoItem) (i : Nat) (ev : DragEndEvent),
        items.length ≤ 1 →
        handleMoveUp listId items i = none ∧ handleMoveDown listId items i = none
        ∧ handleDragEnd listId items ev = none) := by
  refine ⟨?_, ?_, ?_⟩
  · intro listId items
    simp [handleMoveUp]
  · intro listId items
    by_cases hl : items.length < 2
    · simp [handleMoveDown, hl]
    · have hc : ((items.length - 1 : Nat) : Int) = (items.length : Int) - 1 := by omega
      simp [handleMoveDown, hc]
  · intro listId items i ev hlen
    have h2 : items.length < 2 := by omega
    refine ⟨by simp [handleMoveUp, h2], by simp [handleMoveDown, h2], ?_⟩
    obtain ⟨aid, ov⟩ := ev
    cases items with
    | nil =>
      cases ov with
      | none => rfl
      | some o => simp [handleDragEnd, jsFindIndex]
    | cons x rest =>
      cases rest with
      | cons y rest2 =>
        exfalso
        simp only [List.length_cons] at hlen
        omega
      | nil =>
        cases ov with
        | none => rfl
        | some o =>
          by_cases hxa : (x.id == aid) = true
          · by_cases hxo : (x.id == o) = true
            · have ha : x.id = aid := by simpa using hxa
              have ho : x.id = o := by simpa using hxo
              have hao : (aid == o) = true := by simp [← ha, ← ho]
              simp [handleDragEnd, hao]
            · simp [handleDragEnd, jsFindIndex, hxa, hxo]
          · simp [handleDragEnd, jsFindIndex, hxa]

/-- Witness for claim C8: the guards of all three handlers fire on a one
item list. -/
theorem claimC8_witness :
    handleMoveUp (some "L") [mkItem "a" 0] 0 = none
    ∧ handleMoveDown (some "L") [mkItem "a" 0] 0 = none
    ∧ handleDragEnd (some "L") [mkItem "a" 0]
        { activeId := "a", overId := some "b" } = none :=
  claimC8_boundary_noop.2.2 (some "L") [mkItem "a" 0] 0
    { activeId := "a", overId := some "b" } (by decide)

/-- Claim C9: while the credential check is loading both route guards render
the neutral loading view and decide no redirect; once loaded, an
authenticated user on an auth route is sent to the lists view, the root
route sends an authenticated user to the lists view and an unauthenticated
user to the login page, and an unauthenticated user on an auth route sees
the wrapped auth page. -/
theorem claimC9_redirects :
    (∀ a : Bool, AuthRedirect a true = RenderResult.loadingView
        ∧ RootRedirect a true = RenderResult.loadingView)
    ∧ AuthRedirect true false = RenderResult.navigate "/lists"
    ∧ RootRedirect true false = RenderResult.navigate "/lists"
    ∧ RootRedirect false false = RenderResult.navigate "/login"
    ∧ AuthRedirect false false = RenderResult.children := by
  decide

/-- Counterexample to claim C5 as stated: with the reorder mutation pending,
a drag end on the detail page still dispatches a reorder request, so two
reorders for the same list can be in flight concurrently. -/
theorem claimC5_counterexample :
    pageDragEnd (some "L") [mkItem "a" 0, mkItem "b" 1] true
      { activeId := "a", overId := some "b" } = some [("b", 0), ("a", 1)] := by
  decide

/-- Claim C5 as amended: while a reorder is pending the move-up and
move-down buttons are disabled and dispatch nothing, but the drag path does
not consult the pending flag at all, so only button-initiated reorders are
prevented from running concurrently. -/
theorem claimC5_amended :
    (∀ (listId : Option String) (items : List TodoItem) (i : Nat)
        (mc dp : Bool) (pos : Option Nat),
        pageMoveUpClick listId items i true mc dp pos = none)
    ∧ (∀ (listId : Option String) (items : List TodoItem) (i : Nat)
        (mc dp : Bool) (pos : Option Nat),
        pageMoveDownClick listId items i true mc dp pos = none)
    ∧ (∀ (listId : Option String) (items : List TodoItem) (pending : Bool)
        (ev : DragEndEvent),
        pageDragEnd listId items pending ev = pageDragEnd listId items false ev) := by
  refine ⟨?_, ?_, ?_⟩
  · intro listId items i mc dp pos
    simp [pageMoveUpClick, moveUpButtonDisabled]
  · intro listId items i mc dp pos
    simp [pageMoveDownClick, moveDownButtonDisabled]
  · intro listId items pending ev
    rfl

/-- Counterexample to claim C1 as stated: a move-up with non dense starting
orders 5 and 7 produces payload values 7 and 5, which are not the set with
elements 0 and 1. -/
theorem claimC1_counterexample :
    handleMoveUp (some "L") [mkItem "a" 5, mkItem "b" 7] 1 = some [("a", 7), ("b", 5)]
    ∧ ([("a", 7), ("b", 5)] : ReorderPayload).map Prod.snd = [7, 5]
    ∧ ¬ List.Perm ([(7 : Int), 5])
        ((List.range 2).map (fun (k : Nat) => (k : Int))) := by
  refine ⟨by decide, by decide, by decide⟩

/-- Claim C1 as amended: drag payloads carry exactly the order values 0 to
n minus 1 in position order; move-up and move-down payloads carry exactly a
permutation of the order values the items already held, an adjacent swap,
so they are dense only when the previous orders already were. -/
theorem claimC1_amended :
    (∀ (listId : Option String) (items : List TodoItem) (ev : DragEndEvent)
        (p : ReorderPayload),
        handleDragEnd listId items ev = some p →
        p.map Prod.snd = (List.range items.length).map (fun (k : Nat) => (k : Int)))
    ∧ (∀ (listId : Option String) (items : List TodoItem) (i : Nat)
        (p : ReorderPayload),
        i < items.length →
        handleMoveUp listId items i = some p →
        List.Perm (p.map Prod.snd) (items.map fun it => it.order))
    ∧ (∀ (listId : Option String) (items : List TodoItem) (i : Nat)
        (p : ReorderPayload),
        i < items.length →
        handleMoveDown listId items i = some p →
        List.Perm (p.map Prod.snd) (items.map fun it => it.order)) := by
  refine ⟨?_, ?_, ?_⟩
  · intro listId items ev p hp
    obtain ⟨aid, ov⟩ := ev
    cases ov with
    | none => exact absurd hp (by simp [handleDragEnd])
    | some o =>
      by_cases hb : (jsFalsyStr listId || (aid == o)) = true
      · exfalso
        simp [handleDragEnd, hb] at hp
      · have hb' : (jsFalsyStr listId || (aid == o)) = false := by
          simpa using hb
        cases hold : jsFindIndex (fun it => it.id == aid) items with
        | none =>
          exfalso
          simp [handleDragEnd, hb', hold] at hp
        | some oldIdx =>
          cases hnew : jsFindIndex (fun it => it.id == o) items with
          | none =>
            exfalso
            simp [handleDragEnd, hb', hold, hnew] at hp
          | some newIdx =>
            have hp' : buildOrders (fun idx _ => (idx : Int)) 0
                (spliceInsert newIdx (itemAt items oldIdx)
                  (spliceRemove oldIdx items)) = p := by
              have := hp
              simp only [handleDragEnd, hb', Bool.false_eq_true, if_false,
                hold, hnew] at this
              exact Option.some.inj this
            rw [← hp', buildOrders_snd_range]
            have hlt := jsFindIndex_lt _ _ _ hold
            have hlen : (spliceInsert newIdx (itemAt items oldIdx)
                (spliceRemove oldIdx items)).length = items.length := by
              rw [spliceInsert_length, spliceRemove_length _ _ hlt]
              omega
            rw [hlen]
            apply List.map_congr_left
            intro a ha
            norm_num
  · intro listId items i p hi hp
    by_cases hid : jsFalsyStr listId = true
    · exfalso
      simp [handleMoveUp, hid] at hp
    by_cases h0 : i = 0
    · exfalso
      simp [handleMoveUp, h0] at hp
    by_cases h2 : items.length < 2
    · exfalso
      simp [handleMoveUp, h2] at hp
    have hid' : jsFalsyStr listId = false := by simpa using hid
    obtain ⟨A, x, y, B, hEq, hLen⟩ := exists_decomp items (i - 1) (by omega)
    subst hEq
    have hi' : i = A.length + 1 := by omega
    subst hi'
    rw [handleMoveUp_decomp listId hid' A x y B] at hp
    have hp' : ordPairs A ++ (x.id, y.order) :: (y.id, x.order) :: ordPairs B = p :=
      Option.some.inj hp
    rw [← hp']
    simp only [List.map_append, List.map_cons, ordPairs_snd]
    exact List.Perm.append_left _ (List.Perm.swap _ _ _)
  · intro listId items i p hi hp
    by_cases hid : jsFalsyStr listId = true
    · exfalso
      simp [handleMoveDown, hid] at hp
    by_cases h2 : items.length < 2
    · exfalso
      simp [handleMoveDown, h2] at hp
    by_cases hlast : ((i : Int) = (items.length : Int) - 1)
    · exfalso
      simp [handleMoveDown, hlast] at hp
    have hid' : jsFalsyStr listId = false := by simpa using hid
    have hi2 : i + 1 < items.length := by omega
    obtain ⟨A, x, y, B, hEq, hLen⟩ := exists_decomp items i hi2
    subst hEq
    subst hLen
    rw [handleMoveDown_decomp listId hid' A x y B] at hp
    have hp' : ordPairs A ++ (x.id, y.order) :: (y.id, x.order) :: ordPairs B = p :=
      Option.some.inj hp
    rw [← hp']
    simp only [List.map_append, List.map_cons, ordPairs_snd]
    exact List.Perm.append_left _ (List.Perm.swap _ _ _)

/-- Witness for the amended claim C1: all three conjuncts at concrete
inputs, the specification drag example and a two item swap. -/
theorem claimC1_witness :
    ([("B", 0), ("C", 1), ("A", 2), ("D", 3)] : ReorderPayload).map Prod.snd
      = (List.range 4).map (fun (k : Nat) => (k : Int))
    ∧ List.Perm (([("a", 7), ("b", 5)] : ReorderPayload).map Prod.snd)
        ([mkItem "a" 5, mkItem "b" 7].map fun it => it.order)
    ∧ List.Perm (([("a", 7), ("b", 5)] : ReorderPayload).map Prod.snd)
        ([mkItem "a" 5, mkItem "b" 7].map fun it => it.order) :=
  ⟨claimC1_amended.1 (some "L") [mkItem "A" 0, mkItem "B" 1, mkItem "C" 2, mkItem "D" 3]
      { activeId := "A", overId := some "C" } [("B", 0), ("C", 1), ("A", 2), ("D", 3)]
      (by decide),
   claimC1_amended.2.1 (some "L") [mkItem "a" 5, mkItem "b" 7] 1 [("a", 7), ("b", 5)]
      (by decide) (by decide),
   claimC1_amended.2.2 (some "L") [mkItem "a" 5, mkItem "b" 7] 0 [("a", 7), ("b", 5)]
      (by decide) (by decide)⟩

/-- Counterexample to claim C2 as stated: with non dense orders 0 and 2 the
move-up payload keeps the old values while the full relabel assigns dense
indices, and the two mappings disagree on item a. -/
theorem claimC2_counterexample :
    handleMoveUp (some "L") [mkItem "a" 0, mkItem "b" 2] 1 = some [("a", 2), ("b", 0)]
    ∧ specRelabelMove [mkItem "a" 0, mkItem "b" 2] 1 0 = [("b", 0), ("a", 1)]
    ∧ List.lookup "a" ([("a", 2), ("b", 0)] : ReorderPayload)
        ≠ List.lookup "a" ([("b", 0), ("a", 1)] : ReorderPayload) := by
  refine ⟨by decide, by decide, by decide⟩

/-- Claim C2 as amended: when the current order values are already dense,
that is order equals position for every item, the move-up payload at index
i is the full relabel payload for the move to index i minus 1 up to
reordering of the record entries, and the move-down payload at index i is
the full relabel payload for the move to index i plus 1 likewise. -/
theorem claimC2_amended (listId : Option String) (items : List TodoItem) (i : Nat)
    (hid : jsFalsyStr listId = false)
    (hD : items.map (fun it => it.order)
      = (List.range items.length).map (fun (k : Nat) => (k : Int))) :
    (1 ≤ i → i < items.length →
      (handleMoveUp listId items i).isSome = true
      ∧ ∀ p, handleMoveUp listId items i = some p →
          List.Perm p (specRelabelMove items i (i - 1)))
    ∧ (i + 1 < items.length →
      (handleMoveDown listId items i).isSome = true
      ∧ ∀ p, handleMoveDown listId items i = some p →
          List.Perm p (specRelabelMove items i (i + 1))) := by
  have hDp := dense_nthOpt items hD
  constructor
  · intro h1 h2
    obtain ⟨A, x, y, B, hEq, hLen⟩ := exists_decomp items (i - 1) (by omega)
    subst hEq
    have hi' : i = A.length + 1 := by omega
    subst hi'
    have hup := handleMoveUp_decomp listId hid A x y B
    constructor
    · rw [hup]
      rfl
    · intro p hp
      rw [hup] at hp
      have hp' : ordPairs A ++ (x.id, y.order) :: (y.id, x.order) :: ordPairs B = p :=
        Option.some.inj hp
      rw [← hp', Nat.add_sub_cancel, specRelabelMove_decomp_up A x y B]
      have hx : x.order = (A.length : Int) := hDp A.length x (nthOpt_decomp_fst A x y B)
      have hy : y.order = ((A.length + 1 : Nat) : Int) :=
        hDp (A.length + 1) y (nthOpt_decomp_snd A x y B)
      have hA : ordPairs A = buildOrders (fun idx _ => (idx : Int)) 0 A :=
        ordPairs_eq_idxPairs 0 A (fun k it hk => by
          have hkA : k < A.length := nthOpt_lt_length _ _ _ hk
          have hmem : nthOpt (A ++ x :: y :: B) k = some it := by
            rw [nthOpt_append_left _ _ _ hkA]
            exact hk
          have ho := hDp k it hmem
          rw [ho]
          norm_num)
      have hB : ordPairs B = buildOrders (fun idx _ => (idx : Int)) (A.length + 2) B :=
        ordPairs_eq_idxPairs (A.length + 2) B (fun k it hk => by
          have hmem : nthOpt (A ++ x :: y :: B) (A.length + (k + 2)) = some it := by
            rw [nthOpt_append_len]
            exact hk
          have ho := hDp _ it hmem
          rw [ho]
          congr 1
          omega)
      rw [hA, hB, hx, hy]
      exact List.Perm.append_left _ (List.Perm.swap _ _ _)
  · intro h2
    obtain ⟨A, x, y, B, hEq, hLen⟩ := exists_decomp items i h2
    subst hEq
    subst hLen
    have hdown := handleMoveDown_decomp listId hid A x y B
    constructor
    · rw [hdown]
      rfl
    · intro p hp
      rw [hdown] at hp
      have hp' : ordPairs A ++ (x.id, y.order) :: (y.id, x.order) :: ordPairs B = p :=
        Option.some.inj hp
      rw [← hp', specRelabelMove_decomp_down A x y B]
      have hx : x.order = (A.length : Int) := hDp A.length x (nthOpt_decomp_fst A x y B)
      have hy : y.order = ((A.length + 1 : Nat) : Int) :=
        hDp (A.length + 1) y (nthOpt_decomp_snd A x y B)
      have hA : ordPairs A = buildOrders (fun idx _ => (idx : Int)) 0 A :=
        ordPairs_eq_idxPairs 0 A (fun k it hk => by
          have hkA : k < A.length := nthOpt_lt_length _ _ _ hk
          have hmem : nthOpt (A ++ x :: y :: B) k = some it := by
            rw [nthOpt_append_left _ _ _ hkA]
            exact hk
          have ho := hDp k it hmem
          rw [ho]
          norm_num)
      have hB : ordPairs B = buildOrders (fun idx _ => (idx : Int)) (A.length + 2) B :=
        ordPairs_eq_idxPairs (A.length + 2) B (fun k it hk => by
          have hmem : nthOpt (A ++ x :: y :: B) (A.length + (k + 2)) = some it := by
            rw [nthOpt_append_len]
            exact hk
          have ho := hDp _ it hmem
          rw [ho]
          congr 1
          omega)
      rw [hA, hB, hx, hy]
      exact List.Perm.append_left _ (List.Perm.swap _ _ _)

/-- Witness for the amended claim C2: a dense three item list, moving the
middle item up, compared against the relabel for the move to index 0. -/
theorem claimC2_witness :
    (handleMoveUp (some "L") [mkItem "a" 0, mkItem "b" 1, mkItem "c" 2] 1).isSome = true
    ∧ List.Perm ([("a", 1), ("b", 0), ("c", 2)] : ReorderPayload)
        (specRelabelMove [mkItem "a" 0, mkItem "b" 1, mkItem "c" 2] 1 0) := by
  have h := claimC2_amended (some "L") [mkItem "a" 0, mkItem "b" 1, mkItem "c" 2] 1
    (by decide) (by decide)
  exact ⟨(h.1 (by decide) (by decide)).1,
    (h.1 (by decide) (by decide)).2 [("a", 1), ("b", 0), ("c", 2)] (by decide)⟩

theorem cacheFind_invalidate (pat k : QueryKey) (c : Cache) :
    cacheFind k (invalidateQueries pat c)
      = if matchesPat pat k then (cacheFind k c).map (fun _ => { stale := true })
        else cacheFind k c := by
  induction c with
  | nil => cases hm : matchesPat pat k <;> simp [invalidateQueries, cacheFind, hm]
  | cons e rest ih =>
    by_cases he : e.1 = k
    · subst he
      cases hm : matchesPat pat e.1 <;> simp [invalidateQueries, cacheFind, hm]
    · cases hm : matchesPat pat e.1 <;>
        simp [invalidateQueries, cacheFind, hm, he, ih]

theorem cacheFind_remove (pat k : QueryKey) (c : Cache) :
    cacheFind k (removeQueries pat c)
      = if matchesPat pat k then none else cacheFind k c := by
  induction c with
  | nil => cases hm : matchesPat pat k <;> simp [removeQueries, cacheFind, hm]
  | cons e rest ih =>
    by_cases he : e.1 = k
    · subst he
      cases hm : matchesPat pat e.1 <;> simp [removeQueries, cacheFind, hm, ih]
    · cases hm : matchesPat pat e.1 <;>
        simp [removeQueries, cacheFind, hm, he, ih]

theorem cacheFind_setQueryData (k k2 : QueryKey) (c : Cache) :
    cacheFind k (setQueryData k2 c)
      = if k = k2 then some { stale := false } else cacheFind k c := by
  induction c with
  | nil =>
    by_cases h : k = k2
    · subst h
      simp [setQueryData, cacheFind]
    · simp [setQueryData, cacheFind, h, Ne.symm h]
  | cons e rest ih =>
    by_cases he2 : e.1 = k2
    · by_cases hk : k = k2
      · subst hk
        simp [setQueryData, cacheFind, he2]
      · simp [setQueryData, cacheFind, he2, hk, Ne.symm hk]
    · by_cases hek : e.1 = k
      · have hk2 : k ≠ k2 := fun h => he2 (hek.trans h)
        simp [setQueryData, cacheFind, he2, hek, hk2]
      · simp [setQueryData, cacheFind, he2, hek, ih]

theorem matches_all_all : matchesPat todoListKeys.all todoListKeys.all = true := by
  decide

theorem matches_all_detail (id : String) :
    matchesPat todoListKeys.all (todoListKeys.detail id) = true := by
  simp [matchesPat, todoListKeys.all, todoListKeys.detail]

theorem matches_detail_self (id : String) :
    matchesPat (todoListKeys.detail id) (todoListKeys.detail id) = true := by
  simp [matchesPat, todoListKeys.detail]

theorem matches_detail_all (id : String) :
    matchesPat (todoListKeys.detail id) todoListKeys.all = false := by
  simp [matchesPat, todoListKeys.all, todoListKeys.detail]

theorem matches_detail_itemsList (id lid : String) :
    matchesPat (todoListKeys.detail id) (todoItemKeys.list lid) = false := by
  simp [matchesPat, todoListKeys.detail, todoItemKeys.list,
    show ("todoLists" == "todoItems") = false from by decide]

theorem matches_all_itemsList (lid : String) :
    matchesPat todoListKeys.all (todoItemKeys.list lid) = false := by
  simp [matchesPat, todoListKeys.all, todoItemKeys.list,
    show ("todoLists" == "todoItems") = false from by decide]

theorem matches_itemsList_self (lid : String) :
    matchesPat (todoItemKeys.list lid) (todoItemKeys.list lid) = true := by
  simp [matchesPat, todoItemKeys.list]

theorem matches_itemsList_all (lid : String) :
    matchesPat (todoItemKeys.list lid) todoListKeys.all = false := by
  simp [matchesPat, todoListKeys.all, todoItemKeys.list,
    show ("todoItems" == "todoLists") = false from by decide]

theorem matches_itemsList_listsDetail (lid id : String) :
    matchesPat (todoItemKeys.list lid) (todoListKeys.detail id) = false := by
  simp [matchesPat, todoListKeys.detail, todoItemKeys.list,
    show ("todoItems" == "todoLists") = false from by decide]

theorem itemsList_ne_itemDetail (lid l2 i2 : String) :
    todoItemKeys.list lid ≠ todoItemKeys.detail l2 i2 := by
  simp [todoItemKeys.list, todoItemKeys.detail]

theorem listsDetail_ne_itemDetail (id l2 i2 : String) :
    todoListKeys.detail id ≠ todoItemKeys.detail l2 i2 := by
  simp [todoListKeys.detail, todoItemKeys.detail]

theorem listsAll_ne_itemDetail (l2 i2 : String) :
    todoListKeys.all ≠ todoItemKeys.detail l2 i2 := by
  simp [todoListKeys.all, todoItemKeys.detail]

/-- Counterexample to claim C4 as stated: a cache holding only the items
entry of the deleted list is untouched by the delete success handler, so
the items entry is not removed. -/
theorem claimC4_counterexample :
    cacheFind (todoItemKeys.list "5")
      (useDeleteListOnSuccess "5" [(todoItemKeys.list "5", { stale := false })])
      = some { stale := false } := by
  decide

/-- Claim C4 as amended: after a successful deleteList the list-detail
entry of the deleted id is removed, the all-lists entry is marked stale,
and the items entry of the deleted id is left exactly as it was, neither
removed nor invalidated. -/
theorem claimC4_amended (id : String) (c : Cache) :
    cacheFind (todoListKeys.detail id) (useDeleteListOnSuccess id c) = none
    ∧ cacheFind todoListKeys.all (useDeleteListOnSuccess id c)
        = (cacheFind todoListKeys.all c).map (fun _ => { stale := true })
    ∧ cacheFind (todoItemKeys.list id) (useDeleteListOnSuccess id c)
        = cacheFind (todoItemKeys.list id) c := by
  unfold useDeleteListOnSuccess
  refine ⟨?_, ?_, ?_⟩
  · rw [cacheFind_invalidate, cacheFind_remove]
    simp [matches_detail_self, matches_all_detail]
  · rw [cacheFind_invalidate, cacheFind_remove]
    simp [matches_detail_all, matches_all_all]
  · rw [cacheFind_invalidate, cacheFind_remove]
    simp [matches_detail_itemsList, matches_all_itemsList]

/-- Claim C7: after a successful createItem the items entry, the
list-detail entry and the all-lists entry are all marked stale, and after a
successful reorderItems only the items entry is invalidated while every
entry whose key the items key does not match is untouched. -/
theorem claimC7_invalidation :
    (∀ (listId newItemId : String) (c : Cache),
        cacheFind (todoItemKeys.list listId) (useCreateItemOnSuccess listId newItemId c)
          = (cacheFind (todoItemKeys.list listId) c).map (fun _ => { stale := true })
        ∧ cacheFind (todoListKeys.detail listId) (useCreateItemOnSuccess listId newItemId c)
          = (cacheFind (todoListKeys.detail listId) c).map (fun _ => { stale := true })
        ∧ cacheFind todoListKeys.all (useCreateItemOnSuccess listId newItemId c)
          = (cacheFind todoListKeys.all c).map (fun _ => { stale := true }))
    ∧ (∀ (listId : String) (c : Cache),
        cacheFind (todoItemKeys.list listId) (useReorderItemsOnSuccess listId c)
          = (cacheFind (todoItemKeys.list listId) c).map (fun _ => { stale := true })
        ∧ ∀ k, matchesPat (todoItemKeys.list listId) k = false →
            cacheFind k (useReorderItemsOnSuccess listId c) = cacheFind k c) := by
  constructor
  · intro listId newItemId c
    unfold useCreateItemOnSuccess
    refine ⟨?_, ?_, ?_⟩
    · rw [cacheFind_invalidate, cacheFind_invalidate, cacheFind_setQueryData,
        cacheFind_invalidate]
      simp [matches_itemsList_self, matches_all_itemsList, matches_detail_itemsList,
        itemsList_ne_itemDetail]
    · rw [cacheFind_invalidate, cacheFind_invalidate, cacheFind_setQueryData,
        cacheFind_invalidate]
      simp [matches_all_detail, matches_detail_self, listsDetail_ne_itemDetail,
        matches_itemsList_listsDetail]
      cases cacheFind (todoListKeys.detail listId) c <;> rfl
    · rw [cacheFind_invalidate, cacheFind_invalidate, cacheFind_setQueryData,
        cacheFind_invalidate]
      simp [matches_all_all, matches_detail_all, listsAll_ne_itemDetail,
        matches_itemsList_all]
  · intro listId c
    unfold useReorderItemsOnSuccess
    refine ⟨?_, ?_⟩
    · rw [cacheFind_invalidate]
      simp [matches_itemsList_self]
    · intro k hk
      rw [cacheFind_invalidate, hk]
      simp

/-- Witness for claim C7: the reorder invalidation leaves the all-lists
entry of a concrete cache unchanged. -/
theorem claimC7_witness :
    cacheFind todoListKeys.all
      (useReorderItemsOnSuccess "1" [(todoListKeys.all, { stale := false })])
      = cacheFind todoListKeys.all [(todoListKeys.all, { stale := false })] :=
  (claimC7_invalidation.2 "1" [(todoListKeys.all, { stale := false })]).2
    todoListKeys.all (by decide)

/-- Claim C6: failures classified as network or server are retried exactly
once, the retry predicate allowing the first retry and refusing every
further one, while failures classified as validation, auth, notFound or
conflict are never retried. -/
theorem claimC6_retry_policy (st : Option Nat) :
    ((classifyStatus st = ErrorKind.network ∨ classifyStatus st = ErrorKind.server) →
      mutationRetry 0 st = true ∧ ∀ n, 1 ≤ n → mutationRetry n st = false)
    ∧ ((classifyStatus st = ErrorKind.validation ∨ classifyStatus st = ErrorKind.auth
        ∨ classifyStatus st = ErrorKind.notFound ∨ classifyStatus st = ErrorKind.conflict) →
      ∀ n, mutationRetry n st = false) := by
  cases st with
  | none =>
    refine ⟨fun _ => ⟨rfl, fun n hn => ?_⟩, fun h => ?_⟩
    · simp only [mutationRetry, status4xx, Bool.false_eq_true, if_false,
        decide_eq_false_iff_not]
      omega
    · rcases h with h | h | h | h <;> simp [classifyStatus] at h
  | some s =>
    constructor
    · intro h
      have h4 : status4xx (some s) = false := by
        simp only [classifyStatus] at h
        split_ifs at h with c1 c2 c3 c4 c5
        · rcases h with h | h <;> simp at h
        · rcases h with h | h <;> simp at h
        · rcases h with h | h <;> simp at h
        · rcases h with h | h <;> simp at h
        · simp only [status4xx, Bool.and_eq_false_iff, decide_eq_false_iff_not]
          omega
        · rcases h with h | h <;> simp at h
      refine ⟨?_, fun n hn => ?_⟩
      · simp [mutationRetry, h4]
      · simp only [mutationRetry, h4, Bool.false_eq_true, if_false,
          decide_eq_false_iff_not]
        omega
    · intro h n
      have h4 : status4xx (some s) = true := by
        simp only [classifyStatus] at h
        split_ifs at h with c1 c2 c3 c4 c5
        · rcases c1 with c | c <;> subst c <;> decide
        · subst c2
          decide
        · subst c3
          decide
        · subst c4
          decide
        · rcases h with h | h | h | h <;> simp at h
        · rcases h with h | h | h | h <;> simp at h
      simp [mutationRetry, h4]

/-- Witness for claim C6: the retry predicate at concrete failure counts
and statuses, one network, one server and one notFound failure. -/
theorem claimC6_witness :
    mutationRetry 0 none = true ∧ mutationRetry 1 none = false
    ∧ mutationRetry 0 (some 503) = true ∧ mutationRetry 1 (some 503) = false
    ∧ mutationRetry 0 (some 404) = false :=
  ⟨((claimC6_retry_policy none).1 (Or.inl (by decide))).1,
   ((claimC6_retry_policy none).1 (Or.inl (by decide))).2 1 (by omega),
   ((claimC6_retry_policy (some 503)).1 (Or.inr (by decide))).1,
   ((claimC6_retry_policy (some 503)).1 (Or.inr (by decide))).2 1 (by omega),
   (claimC6_retry_policy (some 404)).2 (Or.inr (Or.inr (Or.inl (by decide)))) 0⟩
